import Mathlib

/-!
Shallow embedding of the snapdragon-util tree/nesting utility layer
(src/index.js, second document: the TypeScript-compiled implementation the
specification was written from) together with proofs about the embedded
operations.

Each section names the source function it embeds.  JavaScript objects are
modelled at the precision each function actually observes: a generic tagged
value universe for the dynamic type dispatch helpers, an explicit heap of
node records for the mutating tree operations, and inductive trees for the
traversal and wrapping helpers.
-/

namespace Snapdragon

/-! ## A universe of JavaScript values

Used by the helpers that dispatch on the dynamic type of their argument
(`isNode`, `arrayify`, `stringify`).  `obj` carries its property list in
insertion order; `arr` is a JS array. -/

inductive JSVal where
  | null
  | undefinedV
  | bool (b : Bool)
  | num (n : Int)
  | str (s : String)
  | arr (elems : List JSVal)
  | obj (fields : List (String × JSVal))

/-- The `kind-of` package's classification, restricted to the value shapes in
`JSVal`: plain objects are "object", arrays are "array", `null` is "null". -/
def kindOf : JSVal → String
  | .null => "null"
  | .undefinedV => "undefined"
  | .bool _ => "boolean"
  | .num _ => "number"
  | .str _ => "string"
  | .arr _ => "array"
  | .obj _ => "object"

/-- Source `isObject` from src/index.js: `typeOf(value) === 'object'`. -/
def isObject (v : JSVal) : Bool :=
  kindOf v = "object"

/-- Source `isString` from src/index.js: `typeof value === 'string'`. -/
def isStringV (v : JSVal) : Bool :=
  match v with
  | .str _ => true
  | _ => false

/-- JS `Array.isArray`. -/
def isArrayV (v : JSVal) : Bool :=
  match v with
  | .arr _ => true
  | _ => false

/-- Property read `v[k]`: `undefined` on a missing key or a non-object. -/
def getProp (v : JSVal) (k : String) : JSVal :=
  match v with
  | .obj fields => (fields.lookup k).getD .undefinedV
  | _ => .undefinedV

/-- JavaScript truthiness of a `JSVal`. -/
def truthy : JSVal → Bool
  | .null => false
  | .undefinedV => false
  | .bool b => b
  | .num n => n ≠ 0
  | .str s => s ≠ ""
  | .arr _ => true
  | .obj _ => true

/-- Source `isNode` from src/index.js line 452:
`isObject(node) && node.isNode === true`.  The strict equality `=== true`
accepts only the boolean `true`. -/
def isNode (v : JSVal) : Bool :=
  isObject v && (match getProp v "isNode" with
    | .bool true => true
    | _ => false)

/-- The spec's wording of `isNode`, for comparison with the source version:
"true iff `value` is a non-null structured value carrying a truthy
node-identity marker". -/
def isNodeSpecWording (v : JSVal) : Bool :=
  isObject v && truthy (getProp v "isNode")

/-- JavaScript strict equality `v === s` against a string literal. -/
def strictEqStr (v : JSVal) (s : String) : Bool :=
  match v with
  | .str t => t = s
  | _ => false

/-- Source `arrayify` from src/index.js line 1312:
non-empty strings are wrapped in a singleton, arrays are returned as-is,
everything else becomes the empty array. -/
def arrayify (v : JSVal) : List JSVal :=
  if isStringV v && !(strictEqStr v "") then [v]
  else if !(isArrayV v) then []
  else match v with
    | .arr elems => elems
    | _ => []

mutual

/-- JavaScript `String(v)` conversion for the shapes in `JSVal`
(arrays stringify as their comma-join). -/
def jsToString : JSVal → String
  | .null => "null"
  | .undefinedV => "undefined"
  | .bool b => if b then "true" else "false"
  | .num n => toString n
  | .str s => s
  | .arr elems => jsJoinComma elems
  | .obj _ => "[object Object]"

/-- JS `Array.prototype.join(',')`: elements are converted with `String(..)`,
except `null`/`undefined` elements which contribute the empty string. -/
def jsJoinComma : List JSVal → String
  | [] => ""
  | x :: xs =>
    let s := match x with
      | JSVal.null => ""
      | JSVal.undefinedV => ""
      | v => jsToString v
    match xs with
    | [] => s
    | _ :: _ => s ++ "," ++ jsJoinComma xs

end

/-- Source `stringify` from src/index.js line 1328: `arrayify(value).join(',')`. -/
def stringify (v : JSVal) : String :=
  jsJoinComma (arrayify v)

/-! ## Nesting tracker (`addType` / `removeType` / `isInsideType`)

`state.inside` maps a type name to the stack of currently-open nodes of that
type.  A node is modelled by exactly the data these functions read: the `type`
string, and the parent's `type` when a parent object is present (the functions
assert that `node.type`, respectively `node.parent.type`, is a string). -/

structure TrackNode where
  id : Nat
  type : String
  parentType : Option String
deriving DecidableEq, Repr

/-- The nesting state: `inside` is absent until `addType` lazily creates it.
The mapping is kept in property-insertion order, keys unique by construction
of `mapSet`. -/
structure NestState where
  inside : Option (List (String × List TrackNode))
deriving DecidableEq, Repr

/-- JS property write `m[k] = v` on an object modelled as an ordered
association list: overwrite in place, or append a new key. -/
def mapSet {α : Type} (m : List (String × α)) (k : String) (v : α) : List (String × α) :=
  match m with
  | [] => [(k, v)]
  | (k0, v0) :: rest => if k0 = k then (k, v) :: rest else (k0, v0) :: mapSet rest k v

/-- JS `type.replace(/\.open$/, '')`: drop a trailing `".open"`, if present. -/
def stripDotOpen (t : String) : String :=
  if (".open".data).isSuffixOf t.data then ⟨t.data.take (t.data.length - 5)⟩ else t

/-- The tracking key computed by `addType` (src/index.js lines 1118-1127):
`node.parent.type` when a parent exists, else `node.type` with a trailing
`".open"` stripped. -/
def addTypeKey (n : TrackNode) : String :=
  match n.parentType with
  | some pt => pt
  | none => stripDotOpen n.type

/-- The tracking key computed by `removeType` (src/index.js lines 1159-1168).
The source at line 1167 also strips a trailing `".open"` — not `".close"` —
when the node has no parent. -/
def removeTypeKey (n : TrackNode) : String :=
  match n.parentType with
  | some pt => pt
  | none => stripDotOpen n.type

/-- Source `addType` from src/index.js lines 1115-1138: lazily creates
`state.inside` and the per-key stack, pushes the node, and returns the
stack. -/
def addType (s : NestState) (n : TrackNode) : NestState × List TrackNode :=
  let m := s.inside.getD []
  let k := addTypeKey n
  let stack := (m.lookup k).getD []
  let stack2 := stack ++ [n]
  (⟨some (mapSet m k stack2)⟩, stack2)

/-- Source `removeType` from src/index.js lines 1155-1175.  `none` models the
`TypeError` thrown when `state.inside` is not an object; otherwise the result
is the new state and `stack.pop() || null`: the popped node, or absent when
the key has no stack (or its stack is empty). -/
def removeType (s : NestState) (n : TrackNode) : Option (NestState × Option TrackNode) :=
  match s.inside with
  | none => none
  | some m =>
    let k := removeTypeKey n
    match m.lookup k with
    | none => some (⟨some m⟩, none)
    | some stack => some (⟨some (mapSet m k stack.dropLast)⟩, stack.getLast?)

/-- Source `isInsideType` from src/index.js lines 1220-1230: the key's stack exists
and is non-empty. -/
def isInsideType (s : NestState) (t : String) : Bool :=
  match s.inside with
  | none => false
  | some m =>
    match m.lookup t with
    | none => false
    | some stack => decide (stack.length > 0)

/-- The contents of a key's stack, reading a missing mapping or key as the
empty stack. -/
def stackContents (s : NestState) (k : String) : List TrackNode :=
  ((s.inside.getD []).lookup k).getD []

theorem lookup_mapSet_self {α : Type} (m : List (String × α)) (k : String) (v : α) :
    (mapSet m k v).lookup k = some v := by
  induction m with
  | nil => simp [mapSet, List.lookup]
  | cons hd tl ih =>
    obtain ⟨k0, v0⟩ := hd
    by_cases h : k0 = k
    · subst h
      simp [mapSet, List.lookup]
    · rw [mapSet, if_neg h, List.lookup]
      cases hb : (k == k0) with
      | true => exact absurd (eq_of_beq hb) (fun hh => h hh.symm)
      | false => exact ih

theorem lookup_mapSet_ne {α : Type} (m : List (String × α)) (k k2 : String) (v : α)
    (h : k2 ≠ k) : (mapSet m k v).lookup k2 = m.lookup k2 := by
  induction m with
  | nil =>
    rw [mapSet]
    cases hb : (k2 == k) with
    | true => exact absurd (eq_of_beq hb) h
    | false => simp [List.lookup, hb]
  | cons hd tl ih =>
    obtain ⟨k0, v0⟩ := hd
    by_cases h0 : k0 = k
    · subst h0
      rw [mapSet, if_pos rfl, List.lookup, List.lookup]
      cases hb : (k2 == k0) with
      | true => exact absurd (eq_of_beq hb) h
      | false => rfl
    · rw [mapSet, if_neg h0, List.lookup, List.lookup]
      cases hb : (k2 == k0) with
      | true => rfl
      | false => exact ih

theorem getLast?_append_singleton {α : Type} (l : List α) (a : α) :
    (l ++ [a]).getLast? = some a := by
  rw [List.getLast?_append_cons]
  rfl

theorem dropLast_append_singleton {α : Type} (l : List α) (a : α) :
    (l ++ [a]).dropLast = l := by
  simp

/-- Claim C7: for every state, `isInsideType` is true exactly when the key's
stack exists and is non-empty; and `addType` immediately followed by
`removeType` on the same node succeeds, pops that same node back off, and
restores the contents of every key's stack (a key whose stack did not exist
is restored to the empty contents). -/
theorem isInsideType_iff_nonempty_and_add_remove_balance
    (s : NestState) (t : String) (n : TrackNode) :
    (isInsideType s t = true ↔
       ∃ m stack, s.inside = some m ∧ m.lookup t = some stack ∧ stack ≠ []) ∧
    ∃ s2, removeType (addType s n).1 n = some (s2, some n) ∧
      ∀ k, stackContents s2 k = stackContents s k := by
  constructor
  · cases hs : s.inside with
    | none => simp [isInsideType, hs]
    | some m =>
      cases hl : m.lookup t with
      | none => simp [isInsideType, hs, hl]
      | some stack => simp [isInsideType, hs, hl, List.length_pos]
  · have hadd : (addType s n).1 =
        ⟨some (mapSet (s.inside.getD []) (addTypeKey n)
          ((((s.inside.getD []).lookup (addTypeKey n)).getD []) ++ [n]))⟩ := rfl
    refine ⟨⟨some (mapSet (mapSet (s.inside.getD []) (addTypeKey n)
        ((((s.inside.getD []).lookup (addTypeKey n)).getD []) ++ [n])) (addTypeKey n)
        (((s.inside.getD []).lookup (addTypeKey n)).getD []))⟩, ?_, ?_⟩
    · rw [hadd, removeType]
      have hkey : removeTypeKey n = addTypeKey n := rfl
      simp only [hkey, lookup_mapSet_self, getLast?_append_singleton,
        dropLast_append_singleton]
    · intro k2
      by_cases hk2 : k2 = addTypeKey n
      · subst hk2
        simp [stackContents, lookup_mapSet_self]
      · simp [stackContents, lookup_mapSet_ne _ _ _ _ hk2]

/-- The concrete nesting state for the claim C1 counterexample: the stack for
key `"brace"` holds one node. -/
def braceNode : TrackNode := ⟨0, "brace", none⟩

def closeNode : TrackNode := ⟨1, "brace.close", none⟩

def braceState : NestState := ⟨some [("brace", [braceNode])]⟩

/-- Claim C1, counterexample: for a parentless node of type `"brace.close"`,
the claim says the tracking key is `"brace"` (trailing `".close"` stripped),
so `removeType` should pop `braceNode` and leave the `"brace"` stack empty.
The source (line 1167) strips `".open"` instead, computes key
`"brace.close"`, finds no stack there, and returns absent leaving the state
unchanged. -/
theorem removeType_close_suffix_cex :
    removeType braceState closeNode = some (braceState, none) ∧
    removeType braceState closeNode ≠
      some (⟨some [("brace", [])]⟩, some braceNode) ∧
    removeTypeKey closeNode = "brace.close" := by
  refine ⟨by decide, by decide, by decide⟩

/-- Claim C1, amended: for every state whose `inside` mapping exists,
`removeType(state, node)` determines the tracking key as `node.parent.type`
when the node has a parent, and otherwise as `node.type` with a trailing
`".open"` suffix stripped, and then pops and returns the top of that key's
stack, returning absent (and leaving the state unchanged) if the key's stack
does not exist. -/
theorem removeType_pops_key_stack (s : NestState) (n : TrackNode)
    (m : List (String × List TrackNode)) (hin : s.inside = some m) :
    ∃ s2 r, removeType s n = some (s2, r) ∧
      (let k := match n.parentType with
        | some pt => pt
        | none => stripDotOpen n.type
       (m.lookup k = none → s2 = s ∧ r = none) ∧
       (∀ stack, m.lookup k = some stack →
          r = stack.getLast? ∧
          (s2.inside.getD []).lookup k = some stack.dropLast ∧
          ∀ k2, k2 ≠ k → (s2.inside.getD []).lookup k2 = m.lookup k2)) := by
  have hkey : (match n.parentType with
      | some pt => pt
      | none => stripDotOpen n.type) = removeTypeKey n := rfl
  cases hl : m.lookup (removeTypeKey n) with
  | none =>
    refine ⟨s, none, ?_, ?_⟩
    · rw [removeType, hin]
      simp only [hl]
      cases s
      simp_all
    · rw [hkey]
      refine ⟨fun _ => ⟨rfl, rfl⟩, fun stack hstack => ?_⟩
      rw [hl] at hstack
      exact Option.noConfusion hstack
  | some stack =>
    refine ⟨⟨some (mapSet m (removeTypeKey n) stack.dropLast)⟩, stack.getLast?, ?_, ?_⟩
    · rw [removeType, hin]
      simp only [hl]
    · rw [hkey]
      refine ⟨fun hnone => absurd (hl ▸ hnone) (by simp), fun stack2 hstack2 => ?_⟩
      rw [hl] at hstack2
      cases hstack2
      refine ⟨rfl, ?_, ?_⟩
      · simp [lookup_mapSet_self]
      · intro k2 hk2
        simp [lookup_mapSet_ne _ _ _ _ hk2]

/-- Claim C1, witness: the amended theorem applied to a state tracking key
`"x"` with a one-node stack and a parentless node of type `"x"`. -/
theorem removeType_pops_key_stack_witness :
    (⟨some [("x", [braceNode])]⟩ : NestState).inside = some [("x", [braceNode])] ∧
    ∃ s2 r, removeType ⟨some [("x", [braceNode])]⟩ ⟨7, "x", none⟩ = some (s2, r) ∧
      (let k := match (⟨7, "x", none⟩ : TrackNode).parentType with
        | some pt => pt
        | none => stripDotOpen (⟨7, "x", none⟩ : TrackNode).type
       ([("x", [braceNode])].lookup k = none → s2 = ⟨some [("x", [braceNode])]⟩ ∧ r = none) ∧
       (∀ stack, [("x", [braceNode])].lookup k = some stack →
          r = stack.getLast? ∧
          (s2.inside.getD []).lookup k = some stack.dropLast ∧
          ∀ k2, k2 ≠ k → (s2.inside.getD []).lookup k2 = [("x", [braceNode])].lookup k2)) :=
  ⟨rfl, removeType_pops_key_stack ⟨some [("x", [braceNode])]⟩ ⟨7, "x", none⟩
    [("x", [braceNode])] rfl⟩

/-- Claim C9: `removeType` pops whichever node is on top of the computed
key's stack, regardless of whether that node is the argument: the argument
only determines the key.  Nothing here requires the argument to be on the
stack. -/
theorem removeType_pops_top_regardless (s : NestState) (n : TrackNode)
    (m : List (String × List TrackNode)) (stack : List TrackNode) (top : TrackNode)
    (hin : s.inside = some m)
    (hl : m.lookup (removeTypeKey n) = some stack)
    (hlast : stack.getLast? = some top) :
    ∃ s2, removeType s n = some (s2, some top) ∧
      (s2.inside.getD []).lookup (removeTypeKey n) = some stack.dropLast := by
  refine ⟨⟨some (mapSet m (removeTypeKey n) stack.dropLast)⟩, ?_, ?_⟩
  · rw [removeType, hin]
    simp only [hl, hlast]
  · simp [lookup_mapSet_self]

/-- Claim C9, witness: a never-added node of type `"brace"` (distinct id, not
on any stack) pops `braceNode`, the most recently added `"brace"` node. -/
theorem removeType_pops_top_regardless_witness :
    braceState.inside = some [("brace", [braceNode])] ∧
    [("brace", [braceNode])].lookup (removeTypeKey ⟨99, "brace", none⟩) = some [braceNode] ∧
    [braceNode].getLast? = some braceNode ∧
    ∃ s2, removeType braceState ⟨99, "brace", none⟩ = some (s2, some braceNode) ∧
      (s2.inside.getD []).lookup (removeTypeKey ⟨99, "brace", none⟩) =
        some ([braceNode].dropLast) :=
  ⟨rfl, by decide, rfl,
    removeType_pops_top_regardless braceState ⟨99, "brace", none⟩
      [("brace", [braceNode])] [braceNode] braceNode rfl (by decide) rfl⟩

/-! ## `removeNode`

src/index.js lines 755-770, generic path (the parent exposes no `remove`
capability method).  `parent.nodes` is an optional array of node references;
references are modelled as ids, so `indexOf`'s strict reference equality is
id equality. -/

/-- JS `Array.prototype.indexOf` with a running index, returning `-1` when the
element is absent. -/
def jsIndexOfAux (ns : List Nat) (x : Nat) (i : Nat) : Int :=
  match ns with
  | [] => -1
  | y :: ys => if y = x then (i : Int) else jsIndexOfAux ys x (i + 1)

def jsIndexOf (ns : List Nat) (x : Nat) : Int :=
  jsIndexOfAux ns x 0

/-- Source `removeNode(parent, node)`: scan `parent.nodes` for the first reference
equal to `node`; splice it out and return it, or return absent when it is
not found or the parent has no `nodes` array. -/
def removeNode (nodes : Option (List Nat)) (x : Nat) : Option (List Nat) × Option Nat :=
  match nodes with
  | none => (none, none)
  | some ns =>
    let idx := jsIndexOf ns x
    if idx = -1 then (some ns, none)
    else (some (ns.eraseIdx idx.toNat), ns[idx.toNat]?)

theorem eraseIdx_append_len {α : Type} (l r : List α) (x : α) :
    (l ++ x :: r).eraseIdx l.length = l ++ r := by
  induction l with
  | nil => rfl
  | cons y ys ih => simp [List.eraseIdx, ih]

theorem getElem?_append_len {α : Type} (l r : List α) (x : α) :
    (l ++ x :: r)[l.length]? = some x := by
  induction l with
  | nil => simp
  | cons y ys ih => simpa using ih

theorem jsIndexOfAux_spec (ns : List Nat) (x : Nat) :
    (x ∉ ns → ∀ i, jsIndexOfAux ns x i = -1) ∧
    (x ∈ ns → ∃ l r, ns = l ++ x :: r ∧ x ∉ l ∧
       ∀ i, jsIndexOfAux ns x i = (i : Int) + l.length) := by
  induction ns with
  | nil => exact ⟨fun _ _ => rfl, by simp⟩
  | cons y ys ih =>
    constructor
    · intro hmem i
      rw [jsIndexOfAux, if_neg (fun h => hmem (List.mem_cons.mpr (Or.inl h.symm)))]
      exact ih.1 (fun h => hmem (List.mem_cons_of_mem y h)) (i + 1)
    · intro hmem
      by_cases hxy : y = x
      · subst hxy
        exact ⟨[], ys, rfl, by simp, fun i => by simp [jsIndexOfAux]⟩
      · have hys : x ∈ ys := by
          rcases List.mem_cons.mp hmem with h | h
          · exact absurd h.symm hxy
          · exact h
        obtain ⟨l, r, hsplit, hnotl, hidx⟩ := ih.2 hys
        refine ⟨y :: l, r, by rw [hsplit, List.cons_append], ?_, ?_⟩
        · intro hx
          rcases List.mem_cons.mp hx with h | h
          · exact hxy h.symm
          · exact hnotl h
        · intro i
          rw [jsIndexOfAux, if_neg hxy, hidx (i + 1)]
          simp only [List.length_cons]
          push_cast
          ring

/-- Claim C6: when `x` is not among the parent's children (or the parent has
no children array at all) `removeNode` returns absent and leaves the
children unchanged, and no error path exists; when `x` is present, the first
reference-equal occurrence is removed in place and returned. -/
theorem removeNode_first_match (ns : List Nat) (x : Nat) :
    removeNode none x = (none, none) ∧
    (x ∉ ns → removeNode (some ns) x = (some ns, none)) ∧
    (x ∈ ns → ∃ l r, ns = l ++ x :: r ∧ x ∉ l ∧
       removeNode (some ns) x = (some (l ++ r), some x)) := by
  refine ⟨rfl, ?_, ?_⟩
  · intro hmem
    rw [removeNode]
    simp [jsIndexOf, (jsIndexOfAux_spec ns x).1 hmem 0]
  · intro hmem
    obtain ⟨l, r, hsplit, hnotl, hidx⟩ := (jsIndexOfAux_spec ns x).2 hmem
    refine ⟨l, r, hsplit, hnotl, ?_⟩
    rw [removeNode]
    have hidx0 : jsIndexOf ns x = (l.length : Int) := by
      rw [jsIndexOf, hidx 0]
      simp
    rw [hidx0]
    rw [if_neg (by omega)]
    have htn : ((l.length : Int)).toNat = l.length := rfl
    rw [htn, hsplit, eraseIdx_append_len, getElem?_append_len]

/-- Claim C6, witness: removing `5` from `[9, 5, 8, 5]` removes the first
occurrence and returns it; removing `4` leaves the list unchanged. -/
theorem removeNode_first_match_witness :
    ((5 : Nat) ∈ [9, 5, 8, 5] ∧
      ∃ l r, [9, 5, 8, 5] = l ++ 5 :: r ∧ 5 ∉ l ∧
        removeNode (some [9, 5, 8, 5]) 5 = (some (l ++ r), some 5)) ∧
    ((4 : Nat) ∉ [9, 5, 8, 5] ∧
      removeNode (some [9, 5, 8, 5]) 4 = (some [9, 5, 8, 5], none)) :=
  ⟨⟨by decide, (removeNode_first_match [9, 5, 8, 5] 5).2.2 (by decide)⟩,
   ⟨by decide, (removeNode_first_match [9, 5, 8, 5] 4).2.1 (by decide)⟩⟩

/-! ## Tree mutators on an explicit heap (`pushNode` / `unshiftNode` / `wrapNodes`)

The generic (capability-free) paths of the mutators from src/index.js lines
646-662, 674-690 and 594-634 mutate a shared object graph, so they are
embedded against an explicit heap: node references are ids, and the heap
maps every id to the record holding the two fields these functions touch
(`parent` and `nodes`). -/

namespace Mutate

structure HNode where
  parent : Option Nat
  nodes : Option (List Nat)
deriving DecidableEq, Repr

def Heap : Type := Nat → HNode

/-- Mutate the record at reference `i`. -/
def hset (h : Heap) (i : Nat) (f : HNode → HNode) : Heap :=
  fun j => if j = i then f (h j) else h j

/-- The record `new Node({type: ..., value: ...})` starts from: no parent,
no `nodes` array. -/
def freshNode : HNode := ⟨none, none⟩

/-- Source `pushNode(parent, node)` generic path (lines 655-660):
`node.define('parent', parent); parent.nodes = parent.nodes || [];
parent.nodes.push(node)`. -/
def pushNode (h : Heap) (p c : Nat) : Heap :=
  let h1 := hset h c (fun nd => { nd with parent := some p })
  hset h1 p (fun nd => { nd with nodes := some (nd.nodes.getD [] ++ [c]) })

/-- Source `unshiftNode(parent, node)` generic path (lines 683-688): as `pushNode`
but prepending. -/
def unshiftNode (h : Heap) (p c : Nat) : Heap :=
  let h1 := hset h c (fun nd => { nd with parent := some p })
  hset h1 p (fun nd => { nd with nodes := some (c :: nd.nodes.getD [])})

/-- Source `wrapNodes(node, Node)` (lines 627-634) with no filter: `addOpen`
allocates a fresh open node and unshifts it, then `addClose` allocates a
fresh close node and pushes it.  `o` and `c` are the references `new Node`
returns. -/
def wrapNodes (h : Heap) (p o c : Nat) : Heap :=
  let h1 := hset h o (fun _ => freshNode)
  let h2 := unshiftNode h1 p o
  let h3 := hset h2 c (fun _ => freshNode)
  pushNode h3 p c

def childrenOf (h : Heap) (q : Nat) : List Nat :=
  (h q).nodes.getD []

/-- The spec's parent invariant: every child in any parent's children list
points back to that parent. -/
def ParentInv (h : Heap) : Prop :=
  ∀ p c, c ∈ childrenOf h p → (h c).parent = some p

inductive MOp where
  | push (p c : Nat)
  | unshift (p c : Nat)
  | wrap (p o c : Nat)
deriving DecidableEq, Repr

def applyOp (h : Heap) : MOp → Heap
  | .push p c => pushNode h p c
  | .unshift p c => unshiftNode h p c
  | .wrap p o c => wrapNodes h p o c

def runOps (h : Heap) (ops : List MOp) : Heap :=
  match ops with
  | [] => h
  | op :: rest => runOps (applyOp h op) rest

/-- Side condition forced by the counterexample below: a pushed or unshifted
node must not currently sit in a different parent's children list, and the
sentinels `wrapNodes` allocates are fresh (which `new Node` guarantees in the
source). -/
def okOp (h : Heap) : MOp → Prop
  | .push p c => ∀ q, c ∈ childrenOf h q → q = p
  | .unshift p c => ∀ q, c ∈ childrenOf h q → q = p
  | .wrap p o c => o ≠ c ∧ o ≠ p ∧ c ≠ p ∧
      (∀ q, o ∉ childrenOf h q) ∧ (∀ q, c ∉ childrenOf h q)

def okOps (h : Heap) : List MOp → Prop
  | [] => True
  | op :: rest => okOp h op ∧ okOps (applyOp h op) rest

theorem pushNode_parent (h : Heap) (p c q : Nat) :
    (pushNode h p c q).parent = if q = c then some p else (h q).parent := by
  by_cases hqp : q = p
  · subst hqp
    by_cases hqc : q = c
    · subst hqc
      simp [pushNode, hset]
    · simp [pushNode, hset, hqc]
  · by_cases hqc : q = c
    · subst hqc
      simp [pushNode, hset, hqp]
    · simp [pushNode, hset, hqp, hqc]

theorem pushNode_children (h : Heap) (p c q : Nat) :
    childrenOf (pushNode h p c) q = if q = p then childrenOf h p ++ [c] else childrenOf h q := by
  by_cases hqp : q = p
  · subst hqp
    by_cases hqc : q = c
    · subst hqc
      simp [childrenOf, pushNode, hset]
    · simp [childrenOf, pushNode, hset, hqc]
  · by_cases hqc : q = c
    · subst hqc
      simp [childrenOf, pushNode, hset, hqp]
    · simp [childrenOf, pushNode, hset, hqp, hqc]

theorem unshiftNode_parent (h : Heap) (p c q : Nat) :
    (unshiftNode h p c q).parent = if q = c then some p else (h q).parent := by
  by_cases hqp : q = p
  · subst hqp
    by_cases hqc : q = c
    · subst hqc
      simp [unshiftNode, hset]
    · simp [unshiftNode, hset, hqc]
  · by_cases hqc : q = c
    · subst hqc
      simp [unshiftNode, hset, hqp]
    · simp [unshiftNode, hset, hqp, hqc]

theorem unshiftNode_children (h : Heap) (p c q : Nat) :
    childrenOf (unshiftNode h p c) q =
      if q = p then c :: childrenOf h p else childrenOf h q := by
  by_cases hqp : q = p
  · subst hqp
    by_cases hqc : q = c
    · subst hqc
      simp [childrenOf, unshiftNode, hset]
    · simp [childrenOf, unshiftNode, hset, hqc]
  · by_cases hqc : q = c
    · subst hqc
      simp [childrenOf, unshiftNode, hset, hqp]
    · simp [childrenOf, unshiftNode, hset, hqp, hqc]

theorem hsetFresh_parent (h : Heap) (i q : Nat) :
    (hset h i (fun _ => freshNode) q).parent = if q = i then none else (h q).parent := by
  by_cases hqi : q = i
  · simp [hset, hqi, freshNode]
  · simp [hset, hqi]

theorem hsetFresh_children (h : Heap) (i q : Nat) :
    childrenOf (hset h i (fun _ => freshNode)) q = if q = i then [] else childrenOf h q := by
  by_cases hqi : q = i
  · simp [childrenOf, hset, hqi, freshNode]
  · simp [childrenOf, hset, hqi]

theorem parentInv_pushNode (h : Heap) (p c : Nat)
    (hok : ∀ q, c ∈ childrenOf h q → q = p) (hinv : ParentInv h) :
    ParentInv (pushNode h p c) := by
  intro q d hd
  rw [pushNode_children] at hd
  rw [pushNode_parent]
  by_cases hqp : q = p
  · subst hqp
    rw [if_pos rfl] at hd
    rcases List.mem_append.mp hd with hdl | hdr
    · by_cases hdc : d = c
      · simp [hdc]
      · simp [hdc, hinv q d hdl]
    · have hdc : d = c := by simpa using hdr
      simp [hdc]
  · rw [if_neg hqp] at hd
    have hdc : d ≠ c := fun hEq => hqp (hok q (hEq ▸ hd))
    simp [hdc, hinv q d hd]

theorem parentInv_unshiftNode (h : Heap) (p c : Nat)
    (hok : ∀ q, c ∈ childrenOf h q → q = p) (hinv : ParentInv h) :
    ParentInv (unshiftNode h p c) := by
  intro q d hd
  rw [unshiftNode_children] at hd
  rw [unshiftNode_parent]
  by_cases hqp : q = p
  · subst hqp
    rw [if_pos rfl] at hd
    rcases List.mem_cons.mp hd with hdl | hdr
    · simp [hdl]
    · by_cases hdc : d = c
      · simp [hdc]
      · simp [hdc, hinv q d hdr]
  · rw [if_neg hqp] at hd
    have hdc : d ≠ c := fun hEq => hqp (hok q (hEq ▸ hd))
    simp [hdc, hinv q d hd]

theorem parentInv_hsetFresh (h : Heap) (i : Nat)
    (hfresh : ∀ q, i ∉ childrenOf h q) (hinv : ParentInv h) :
    ParentInv (hset h i (fun _ => freshNode)) := by
  intro q d hd
  rw [hsetFresh_children] at hd
  by_cases hqi : q = i
  · rw [if_pos hqi] at hd
    exact absurd hd (List.not_mem_nil d)
  · rw [if_neg hqi] at hd
    have hdi : d ≠ i := fun hEq => hfresh q (hEq ▸ hd)
    rw [hsetFresh_parent, if_neg hdi]
    exact hinv q d hd

theorem parentInv_wrapNodes (h : Heap) (p o c : Nat)
    (hoc : o ≠ c) (_hop : o ≠ p) (_hcp : c ≠ p)
    (hof : ∀ q, o ∉ childrenOf h q) (hcf : ∀ q, c ∉ childrenOf h q)
    (hinv : ParentInv h) : ParentInv (wrapNodes h p o c) := by
  have h1of : ∀ q, o ∉ childrenOf (hset h o (fun _ => freshNode)) q := by
    intro q
    rw [hsetFresh_children]
    by_cases hqo : q = o
    · simp [hqo]
    · rw [if_neg hqo]
      exact hof q
  have h1cf : ∀ q, c ∉ childrenOf (hset h o (fun _ => freshNode)) q := by
    intro q
    rw [hsetFresh_children]
    by_cases hqo : q = o
    · simp [hqo]
    · rw [if_neg hqo]
      exact hcf q
  have h1inv := parentInv_hsetFresh h o hof hinv
  have h2inv := parentInv_unshiftNode _ p o (fun q hq => absurd hq (h1of q)) h1inv
  have h2cf : ∀ q, c ∉ childrenOf (unshiftNode (hset h o (fun _ => freshNode)) p o) q := by
    intro q
    rw [unshiftNode_children]
    by_cases hqp : q = p
    · rw [if_pos hqp]
      intro hmem
      rcases List.mem_cons.mp hmem with hco | hcm
      · exact hoc hco.symm
      · exact h1cf p hcm
    · rw [if_neg hqp]
      exact h1cf q
  have h3inv := parentInv_hsetFresh _ c h2cf h2inv
  have h3cf : ∀ q, c ∉ childrenOf
      (hset (unshiftNode (hset h o (fun _ => freshNode)) p o) c (fun _ => freshNode)) q := by
    intro q
    rw [hsetFresh_children]
    by_cases hqc : q = c
    · simp [hqc]
    · rw [if_neg hqc]
      exact h2cf q
  exact parentInv_pushNode _ p c (fun q hq => absurd hq (h3cf q)) h3inv

theorem parentInv_applyOp (h : Heap) (op : MOp)
    (hok : okOp h op) (hinv : ParentInv h) : ParentInv (applyOp h op) := by
  cases op with
  | push p c => exact parentInv_pushNode h p c hok hinv
  | unshift p c => exact parentInv_unshiftNode h p c hok hinv
  | wrap p o c =>
    obtain ⟨h1, h2, h3, h4, h5⟩ := hok
    exact parentInv_wrapNodes h p o c h1 h2 h3 h4 h5 hinv

/-- The heap every node record of which is blank. -/
def blankHeap : Heap := fun _ => freshNode

/-- Claim C2, counterexample: pushing node `3` under parent `1` and then
under parent `2` — a sequence of `pushNode` operations on capability-free
nodes — leaves `3` in `1`'s children while `3.parent` is `2`, violating the
claimed invariant. -/
theorem parent_inv_cex :
    ¬ ParentInv (runOps blankHeap [MOp.push 1 3, MOp.push 2 3]) := by
  intro hinv
  have h3 : (3 : Nat) ∈ childrenOf (runOps blankHeap [MOp.push 1 3, MOp.push 2 3]) 1 := by
    decide
  have hp := hinv 1 3 h3
  have h2 : (runOps blankHeap [MOp.push 1 3, MOp.push 2 3] 3).parent = some 2 := by
    decide
  rw [h2] at hp
  simp at hp

/-- Claim C2, amended: after any sequence of `pushNode`, `unshiftNode` and
`wrapNodes` operations on capability-free nodes in which no pushed or
unshifted node currently sits in a different parent's children list and the
sentinels `wrapNodes` allocates are fresh (as `new Node` guarantees), every
child `C` in a parent `P`'s children sequence satisfies `C.parent === P`. -/
theorem parent_inv_after_ops (h : Heap) (ops : List MOp)
    (hinv : ParentInv h) (hok : okOps h ops) : ParentInv (runOps h ops) := by
  induction ops generalizing h with
  | nil => exact hinv
  | cons op rest ih => exact ih (applyOp h op) (parentInv_applyOp h op hok.1 hinv) hok.2

/-- Claim C2, witness: the amended theorem applied to the blank heap and a
sequence pushing, unshifting and wrapping fresh nodes under parent `1`. -/
theorem parent_inv_after_ops_witness :
    ParentInv blankHeap ∧
    okOps blankHeap [MOp.push 1 3, MOp.unshift 1 4, MOp.wrap 1 10 11] ∧
    ParentInv (runOps blankHeap [MOp.push 1 3, MOp.unshift 1 4, MOp.wrap 1 10 11]) := by
  have hempty : ∀ q, childrenOf blankHeap q = [] := fun q => rfl
  have hinv : ParentInv blankHeap := by
    intro p c hc
    rw [hempty] at hc
    exact absurd hc (List.not_mem_nil c)
  have hc1 : ∀ q, childrenOf (applyOp blankHeap (MOp.push 1 3)) q =
      if q = 1 then [3] else [] := by
    intro q
    show childrenOf (pushNode blankHeap 1 3) q = _
    rw [pushNode_children]
    by_cases hq : q = 1
    · simp [hq, hempty]
    · simp [hq, hempty]
  have hc2 : ∀ q, childrenOf (applyOp (applyOp blankHeap (MOp.push 1 3)) (MOp.unshift 1 4)) q =
      if q = 1 then [4, 3] else [] := by
    intro q
    show childrenOf (unshiftNode _ 1 4) q = _
    rw [unshiftNode_children]
    by_cases hq : q = 1
    · simp [hq, hc1]
    · simp [hq, hc1]
  have hok : okOps blankHeap [MOp.push 1 3, MOp.unshift 1 4, MOp.wrap 1 10 11] := by
    refine ⟨?_, ?_, ⟨?_, ?_, ?_, ?_, ?_⟩, trivial⟩
    · intro q hq
      rw [hempty] at hq
      exact absurd hq (List.not_mem_nil 3)
    · intro q hq
      rw [hc1] at hq
      by_cases h1 : q = 1
      · exact h1
      · rw [if_neg h1] at hq
        exact absurd hq (List.not_mem_nil 4)
    · decide
    · decide
    · decide
    · intro q
      rw [hc2]
      by_cases h1 : q = 1
      · simp [h1]
      · simp [h1]
    · intro q
      rw [hc2]
      by_cases h1 : q = 1
      · simp [h1]
      · simp [h1]
  exact ⟨hinv, hok, parent_inv_after_ops blankHeap _ hinv hok⟩

end Mutate

/-! ## Trees: `wrapNodes` child order and the `visit` traversal

For the properties about child order and traversal order the object graph is
a proper tree, embedded as an inductive type carrying the fields these
functions read (`type`, `value`, `nodes`).  Parent back-references are the
subject of the heap model above and play no role here. -/

namespace TreeM

inductive TreeNode where
  | node (type : String) (value : Option String) (nodes : Option (List TreeNode))

def TreeNode.type : TreeNode → String
  | .node t _ _ => t

def TreeNode.value : TreeNode → Option String
  | .node _ v _ => v

def TreeNode.nodes : TreeNode → Option (List TreeNode)
  | .node _ _ ns => ns

/-- Source `addOpen(node, Node, value, filter)` (src/index.js lines 594-608) as
called by `wrapNodes`: the third argument is the filter, so when a filter
function is given the open node's value is `''`, and with no filter it is
`undefined`; the open node is unshifted onto `node.nodes` (created when
absent). -/
def addOpen (n : TreeNode) (filter : Option (TreeNode → Bool)) : TreeNode :=
  match filter with
  | some f =>
    if !(f n) then n
    else TreeNode.node n.type n.value
      (some (TreeNode.node (n.type ++ ".open") (some "") none :: n.nodes.getD []))
  | none =>
    TreeNode.node n.type n.value
      (some (TreeNode.node (n.type ++ ".open") none none :: n.nodes.getD []))

/-- Source `addClose(node, Node, value, filter)` (lines 609-623) as called by
`wrapNodes`: symmetric to `addOpen`, pushing the close node. -/
def addClose (n : TreeNode) (filter : Option (TreeNode → Bool)) : TreeNode :=
  match filter with
  | some f =>
    if !(f n) then n
    else TreeNode.node n.type n.value
      (some (n.nodes.getD [] ++ [TreeNode.node (n.type ++ ".close") (some "") none]))
  | none =>
    TreeNode.node n.type n.value
      (some (n.nodes.getD [] ++ [TreeNode.node (n.type ++ ".close") none none]))

/-- Source `wrapNodes(node, Node, filter)` (lines 627-634): `addOpen` then
`addClose`, returning the node. -/
def wrapNodes (n : TreeNode) (filter : Option (TreeNode → Bool)) : TreeNode :=
  addClose (addOpen n filter) filter

/-- Claim C3: with no filter, or a filter that returns true, `wrapNodes`
leaves the children equal to `[open, ...originalChildren, close]` (creating
the children sequence when absent), with the sentinel types derived from the
node's type. -/
theorem wrapNodes_children (n : TreeNode) (filter : Option (TreeNode → Bool))
    (hf : filter = none ∨ ∃ f, filter = some f ∧ ∀ m, f m = true) :
    ∃ op cl,
      (wrapNodes n filter).type = n.type ∧
      (wrapNodes n filter).nodes = some (op :: (n.nodes.getD [] ++ [cl])) ∧
      op.type = n.type ++ ".open" ∧ cl.type = n.type ++ ".close" := by
  rcases hf with rfl | ⟨f, rfl, hft⟩
  · cases n with
    | node t v ns =>
      refine ⟨TreeNode.node (t ++ ".open") none none,
        TreeNode.node (t ++ ".close") none none, ?_, ?_, rfl, rfl⟩
      · rfl
      · simp [wrapNodes, addOpen, addClose, TreeNode.type, TreeNode.value, TreeNode.nodes]
  · cases n with
    | node t v ns =>
      refine ⟨TreeNode.node (t ++ ".open") (some "") none,
        TreeNode.node (t ++ ".close") (some "") none, ?_, ?_, rfl, rfl⟩
      · simp [wrapNodes, addOpen, addClose, hft, TreeNode.type]
      · simp [wrapNodes, addOpen, addClose, hft, TreeNode.type, TreeNode.value, TreeNode.nodes]

/-- A childless node and a node with one text child, for the C3 witness. -/
def textA : TreeNode := TreeNode.node "text" (some "a") none

def braceTree : TreeNode := TreeNode.node "brace" none (some [textA])

def leafTree : TreeNode := TreeNode.node "leaf" none none

/-- Claim C3, witness: wrapping a node with one child and a node with no
children sequence at all, with no filter and with a constantly-true
filter. -/
theorem wrapNodes_children_witness :
    (∃ op cl,
      (wrapNodes braceTree none).type = braceTree.type ∧
      (wrapNodes braceTree none).nodes = some (op :: (braceTree.nodes.getD [] ++ [cl])) ∧
      op.type = braceTree.type ++ ".open" ∧ cl.type = braceTree.type ++ ".close") ∧
    (∃ op cl,
      (wrapNodes leafTree (some (fun _ => true))).type = leafTree.type ∧
      (wrapNodes leafTree (some (fun _ => true))).nodes =
        some (op :: (leafTree.nodes.getD [] ++ [cl])) ∧
      op.type = leafTree.type ++ ".open" ∧ cl.type = leafTree.type ++ ".close") :=
  ⟨wrapNodes_children braceTree none (Or.inl rfl),
   wrapNodes_children leafTree (some (fun _ => true))
     (Or.inr ⟨fun _ => true, rfl, fun _ => rfl⟩)⟩

/-! `visit(node, fn)` (src/index.js lines 559-565) and `mapVisit(node, fn)`
(lines 580-593).  The pair returned is the node the function returns
together with the trace of arguments `fn` receives, in call order; `fn`'s
return value is discarded exactly as in the source (`fn(node);`). -/

mutual

def visit (n : TreeNode) (f : TreeNode → Option TreeNode) : TreeNode × List TreeNode :=
  match n with
  | .node t v (some cs) =>
    let r := mapVisit (.node t v (some cs)) f
    (r.1, TreeNode.node t v (some cs) :: r.2)
  | .node t v none => (TreeNode.node t v none, [TreeNode.node t v none])

def mapVisit (n : TreeNode) (f : TreeNode → Option TreeNode) : TreeNode × List TreeNode :=
  match n with
  | .node t v (some cs) => (TreeNode.node t v (some cs), visitList cs f)
  | .node t v none => (TreeNode.node t v none, [])

def visitList (ns : List TreeNode) (f : TreeNode → Option TreeNode) : List TreeNode :=
  match ns with
  | [] => []
  | x :: xs => (visit x f).2 ++ visitList xs f

end

/-! The pre-order, depth-first, left-to-right enumeration of a subtree,
defined independently of `visit`. -/

mutual

def preorder : TreeNode → List TreeNode
  | .node t v none => [TreeNode.node t v none]
  | .node t v (some cs) => TreeNode.node t v (some cs) :: preorderList cs

def preorderList : List TreeNode → List TreeNode
  | [] => []
  | x :: xs => preorder x ++ preorderList xs

end

mutual

theorem visit_eq_preorder (n : TreeNode) (f : TreeNode → Option TreeNode) :
    visit n f = (n, preorder n) := by
  cases n with
  | node t v ns =>
    cases ns with
    | none => simp [visit, preorder]
    | some cs =>
      rw [visit, mapVisit, visitList_eq_preorder cs f, preorder]

theorem visitList_eq_preorder (ns : List TreeNode) (f : TreeNode → Option TreeNode) :
    visitList ns f = preorderList ns := by
  cases ns with
  | nil => rw [visitList, preorderList]
  | cons x xs =>
    rw [visitList, preorderList, visit_eq_preorder x f, visitList_eq_preorder xs f]

end

/-- Claim C4: for every tree and every visitor, `visit` returns the root
node unchanged (independent of what the visitor returns — its return value
is never used to replace a node) and the visitor is invoked exactly once per
node of the subtree, in pre-order depth-first left-to-right order. -/
theorem visit_returns_root_preorder_trace (n : TreeNode) (f : TreeNode → Option TreeNode) :
    visit n f = (n, preorder n) :=
  visit_eq_preorder n f

def visitRoot : TreeNode :=
  TreeNode.node "root" none (some [textA, TreeNode.node "b" none (some [])])

/-- Claim C4, witness: the traversal of a two-child tree, with the trace
evaluated: root first, then each child left to right, each exactly once. -/
theorem visit_returns_root_preorder_trace_witness :
    visit visitRoot (fun _ => none) =
      (visitRoot, [visitRoot, textA, TreeNode.node "b" none (some [])]) :=
  (visit_returns_root_preorder_trace visitRoot (fun _ => none)).trans
    (by simp [preorder, preorderList, visitRoot, textA])

end TreeM

/-! ## `isInside` (src/index.js lines 1244-1284)

`isInside` reads only `node.parent` (and its `type`) from the node, and the
`state.inside` mapping.  A matcher is a string, a regexp (embedded as its
`test` predicate on strings), an array of matchers, or a value of any other
shape. -/

structure ParentRef where
  type : Option String

structure INode where
  parent : Option ParentRef

inductive Matcher where
  | str (s : String)
  | regexp (test : String → Bool)
  | set (ms : List Matcher)
  | other

mutual

/-- Three-way dispatch on the matcher's dynamic type, with the JS `throw`
modelled as `Except.error`.  In the regexp arm the parent test runs only when
`node.parent` and `node.parent.type` are truthy (a present parent with a
non-empty type string), and the key scan requires `state.inside` to be an
object, else the assertion throws. -/
def isInside (s : NestState) (n : INode) (m : Matcher) : Except String Bool :=
  match m with
  | .str t =>
    Except.ok ((match n.parent with
      | some p => decide (p.type = some t)
      | none => false) || isInsideType s t)
  | .regexp re =>
    let parentHit : Bool :=
      match n.parent with
      | some p =>
        match p.type with
        | some pt => decide (pt ≠ "") && re pt
        | none => false
      | none => false
    if parentHit then Except.ok true
    else
      match s.inside with
      | none => Except.error "expected state.inside to be an object"
      | some m0 => Except.ok (m0.any (fun kv => decide (kv.2.length ≠ 0) && re kv.1))
  | .set ms => isInsideList s n ms
  | .other => Except.error "expected type to be an array, string or regexp"

/-- The `for (const child of type) if (isInside(state, node, child)) return
true` loop: stop on the first member that is inside, propagate a thrown
error. -/
def isInsideList (s : NestState) (n : INode) (ms : List Matcher) : Except String Bool :=
  match ms with
  | [] => Except.ok false
  | m :: rest =>
    match isInside s n m with
    | .error e => Except.error e
    | .ok true => Except.ok true
    | .ok false => isInsideList s n rest

end

theorem isInsideList_all_false (s : NestState) (n : INode) (ms : List Matcher)
    (h : ∀ m2 ∈ ms, isInside s n m2 = Except.ok false) :
    isInsideList s n ms = Except.ok false := by
  induction ms with
  | nil => rw [isInsideList]
  | cons m rest ih =>
    rw [isInsideList, h m (List.mem_cons_self m rest)]
    exact ih (fun m2 hm2 => h m2 (List.mem_cons_of_mem m hm2))

theorem isInsideList_first_true (s : NestState) (n : INode)
    (l : List Matcher) (mt : Matcher) (r : List Matcher)
    (hl : ∀ m2 ∈ l, isInside s n m2 = Except.ok false)
    (hmt : isInside s n mt = Except.ok true) :
    isInsideList s n (l ++ mt :: r) = Except.ok true := by
  induction l with
  | nil =>
    rw [List.nil_append, isInsideList, hmt]
  | cons m rest ih =>
    rw [List.cons_append, isInsideList, hl m (List.mem_cons_self m rest)]
    exact ih (fun m2 hm2 => hl m2 (List.mem_cons_of_mem m hm2))

theorem anyKey_iff (m0 : List (String × List TrackNode)) (re : String → Bool) :
    (m0.any (fun kv => decide (kv.2.length ≠ 0) && re kv.1)) = true ↔
      ∃ kv, kv ∈ m0 ∧ kv.2 ≠ [] ∧ re kv.1 = true := by
  simp [List.any_eq_true, List.length_eq_zero]

/-- The truthiness-guarded parent test of the regexp arm, as a standalone
condition. -/
def parentHitB (n : INode) (re : String → Bool) : Bool :=
  match n.parent with
  | some p =>
    match p.type with
    | some pt => decide (pt ≠ "") && re pt
    | none => false
  | none => false

theorem parentHitB_iff (n : INode) (re : String → Bool) :
    parentHitB n re = true ↔
      ∃ p pt, n.parent = some p ∧ p.type = some pt ∧ pt ≠ "" ∧ re pt = true := by
  cases hp : n.parent with
  | none => simp [parentHitB, hp]
  | some p =>
    cases hpt : p.type with
    | none => simp [parentHitB, hp, hpt]
    | some pt => simp [parentHitB, hp, hpt]

theorem isInside_regexp_eval (s : NestState) (n : INode) (re : String → Bool)
    (m0 : List (String × List TrackNode)) (hin : s.inside = some m0) :
    isInside s n (Matcher.regexp re) =
      if parentHitB n re = true
      then Except.ok true
      else Except.ok (m0.any fun kv => decide (kv.2.length ≠ 0) && re kv.1) := by
  rw [isInside]
  simp only [hin]
  rfl

/-- Claim C8, counterexample: the claim says a regexp matcher is true
whenever the regexp matches `node.parent.type`.  With a parent whose type is
the empty string and the match-everything regexp, the regexp matches the
parent's type, but the source's truthiness guard `parent && parent.type`
skips the empty string, scans the (empty) `state.inside`, and returns
false. -/
theorem isInside_regexp_empty_parent_type_cex :
    isInside ⟨some []⟩ ⟨some ⟨some ""⟩⟩ (Matcher.regexp (fun _ => true)) =
      Except.ok false ∧
    (fun _ : String => true) "" = true := by
  refine ⟨?_, rfl⟩
  rw [isInside]
  simp

/-- Claim C8, amended: for a state whose `inside` mapping exists, a regexp
matcher is true iff the regexp matches a present parent's non-empty type, or
matches some key of `state.inside` whose stack is non-empty; an array
matcher is the short-circuit logical OR of `isInside` over its members; a
matcher of any other shape (not string, regexp or array) fails with the
invalid-argument error. -/
theorem isInside_dispatch (s : NestState) (n : INode) :
    (∀ (re : String → Bool) m0, s.inside = some m0 →
      ∃ b, isInside s n (Matcher.regexp re) = Except.ok b ∧
        (b = true ↔
          (∃ p pt, n.parent = some p ∧ p.type = some pt ∧ pt ≠ "" ∧ re pt = true) ∨
          (∃ kv, kv ∈ m0 ∧ kv.2 ≠ [] ∧ re kv.1 = true))) ∧
    (∀ ms, (∀ m2 ∈ ms, isInside s n m2 = Except.ok false) →
      isInside s n (Matcher.set ms) = Except.ok false) ∧
    (∀ (l : List Matcher) mt r, (∀ m2 ∈ l, isInside s n m2 = Except.ok false) →
      isInside s n mt = Except.ok true →
      isInside s n (Matcher.set (l ++ mt :: r)) = Except.ok true) ∧
    isInside s n Matcher.other = Except.error "expected type to be an array, string or regexp" := by
  refine ⟨?_, ?_, ?_, by rw [isInside]⟩
  · intro re m0 hin
    rw [isInside_regexp_eval s n re m0 hin]
    by_cases hcond : parentHitB n re = true
    · rw [if_pos hcond]
      exact ⟨true, rfl, iff_of_true rfl (Or.inl ((parentHitB_iff n re).mp hcond))⟩
    · rw [if_neg hcond]
      refine ⟨_, rfl, ?_⟩
      rw [anyKey_iff]
      constructor
      · exact Or.inr
      · rintro (hL | h)
        · exact absurd ((parentHitB_iff n re).mpr hL) hcond
        · exact h
  · intro ms h
    rw [isInside]
    exact isInsideList_all_false s n ms h
  · intro l mt r hl hmt
    rw [isInside]
    exact isInsideList_first_true s n l mt r hl hmt

def insideStateW : NestState := ⟨some [("brace", [⟨3, "brace", none⟩])]⟩

def insideNodeW : INode := ⟨some ⟨some "foo"⟩⟩

/-- Claim C8, witness: the amended theorem applied to a state whose
`"brace"` stack is non-empty and a node whose parent type is `"foo"`: a
regexp matching `"brace"` is inside through the key scan, a member list
whose first matching member is the regexp short-circuits past an
invalid-shape tail, and the invalid shape errors. -/
theorem isInside_dispatch_witness :
    insideStateW.inside = some [("brace", [⟨3, "brace", none⟩])] ∧
    (∃ b, isInside insideStateW insideNodeW (Matcher.regexp (fun t => t = "brace")) =
        Except.ok b ∧
      (b = true ↔
        (∃ p pt, insideNodeW.parent = some p ∧ p.type = some pt ∧ pt ≠ "" ∧
          (fun t : String => decide (t = "brace")) pt = true) ∨
        (∃ kv, kv ∈ [("brace", [(⟨3, "brace", none⟩ : TrackNode)])] ∧ kv.2 ≠ [] ∧
          (fun t : String => decide (t = "brace")) kv.1 = true))) ∧
    isInside insideStateW insideNodeW
        (Matcher.set [Matcher.regexp (fun t => t = "brace"), Matcher.other]) =
      Except.ok true ∧
    isInside insideStateW insideNodeW Matcher.other =
      Except.error "expected type to be an array, string or regexp" :=
  ⟨rfl,
   (isInside_dispatch insideStateW insideNodeW).1 (fun t => t = "brace")
     [("brace", [⟨3, "brace", none⟩])] rfl,
   (isInside_dispatch insideStateW insideNodeW).2.2.1 []
     (Matcher.regexp (fun t => t = "brace")) [Matcher.other]
     (fun m2 hm2 => absurd hm2 (List.not_mem_nil m2))
     (by rw [isInside_regexp_eval insideStateW insideNodeW _ _ rfl]; rfl),
   (isInside_dispatch insideStateW insideNodeW).2.2.2⟩

/-- Claim C5, counterexample: the claim says `isNode` is true for every object
whose node-identity marker is truthy, but on the object with marker field `1`
(an object, marker truthy) the source's strict comparison `=== true` yields
false. -/
theorem isNode_truthy_marker_cex :
    isNode (JSVal.obj [("isNode", JSVal.num 1)]) = false ∧
    isObject (JSVal.obj [("isNode", JSVal.num 1)]) = true ∧
    truthy (getProp (JSVal.obj [("isNode", JSVal.num 1)]) "isNode") = true := by
  refine ⟨rfl, by simp [isObject, kindOf], rfl⟩

/-- Claim C5, amended: `isNode(value)` returns true iff `value` is a
structured (object) value whose node-identity marker field is exactly the
boolean `true` (strict equality); every other input — null, primitives,
arrays, objects without the marker, and objects whose marker is truthy but
not `true` — yields false. -/
theorem isNode_iff_strict_marker (v : JSVal) :
    isNode v = true ↔
      ∃ fields, v = JSVal.obj fields ∧ fields.lookup "isNode" = some (JSVal.bool true) := by
  cases v with
  | obj fields =>
    simp only [isNode, isObject, kindOf, getProp, Bool.and_eq_true, decide_eq_true_eq]
    constructor
    · rintro ⟨-, hm⟩
      cases h : fields.lookup "isNode" with
      | none => rw [h] at hm; simp at hm
      | some w =>
        rw [h] at hm
        cases w <;> simp_all
        case bool b => cases b <;> simp_all
    · rintro ⟨fields2, heq, hm⟩
      cases heq
      rw [hm]
      simp
  | null => simp [isNode, isObject, kindOf]
  | undefinedV => simp [isNode, isObject, kindOf]
  | bool b => simp [isNode, isObject, kindOf]
  | num n => simp [isNode, isObject, kindOf]
  | str s => simp [isNode, isObject, kindOf]
  | arr elems => simp [isNode, isObject, kindOf]

/-- Claim C10: `arrayify` maps every value that is neither a non-empty string
nor an array to the empty array, and `stringify` of any such value is the
empty string. -/
theorem arrayify_otherwise_empty (v : JSVal)
    (hs : ∀ s, v = JSVal.str s → s = "")
    (ha : ∀ elems, v ≠ JSVal.arr elems) :
    arrayify v = [] ∧ stringify v = "" := by
  have h : arrayify v = [] := by
    cases v
    case str s =>
      have hs0 := hs s rfl
      subst hs0
      simp [arrayify, isStringV, strictEqStr, isArrayV]
    case arr elems => exact absurd rfl (ha elems)
    all_goals simp [arrayify, isStringV, strictEqStr, isArrayV]
  refine ⟨h, ?_⟩
  rw [stringify, h]
  simp [jsJoinComma]

/-- Claim C10, witness: `arrayify` and `stringify` at the number `42` and at
the empty string. -/
theorem arrayify_otherwise_empty_witness :
    (arrayify (JSVal.num 42) = [] ∧ stringify (JSVal.num 42) = "") ∧
    (arrayify (JSVal.str "") = [] ∧ stringify (JSVal.str "") = "") := by
  constructor
  · exact arrayify_otherwise_empty (JSVal.num 42)
      (fun s h => JSVal.noConfusion h) (fun elems h => JSVal.noConfusion h)
  · exact arrayify_otherwise_empty (JSVal.str "")
      (fun s h => by cases h; rfl) (fun elems h => JSVal.noConfusion h)

end Snapdragon
